import Mathlib

/-!
Verification of the DarkPause Enforcement and Persistence subsystem.

Shallow embedding of the core logic of the repository:
  - the hosts-file block-section codec and the hosts block manager
    (src/core/hosts_manager.py),
  - the per-platform usage tracker with logical-day rollover
    (src/core/usage_tracker.py),
  - the crash-recoverable blackout session state (src/ui/blackout.py),
  - the allowlist firewall mode enable/disable action traces
    (src/core/firewall_manager.py).

Text files are modelled as Lean strings; lines are obtained by a faithful
model of Python str.splitlines for newline-separated text, and Python
substring membership (the `in` operator) is modelled by an executable
character-list scan.  Machine floats of the tracker are modelled as
rationals.  Fallible I/O is modelled by explicit error/outcome values,
since every operation of the source catches exceptions at its boundary.
-/

set_option maxRecDepth 100000

namespace DarkPause

/-! ## String primitives: Python `in`, `splitlines`, `join`, `rstrip` -/

/-- Model of "pat is a prefix of l" on character lists, executable. -/
def charsStartWith : List Char → List Char → Bool
  | [], _ => true
  | _ :: _, [] => false
  | a :: as, b :: bs => a == b && charsStartWith as bs

/-- Model of Python substring containment (the `in` operator) on character
lists: scan every suffix for the pattern. -/
def charsContain (pat : List Char) : List Char → Bool
  | [] => pat.isEmpty
  | c :: rest => charsStartWith pat (c :: rest) || charsContain pat rest

/-- `containsSub pat s` models Python `pat in s`. -/
def containsSub (pat s : String) : Bool :=
  charsContain pat.data s.data

/-- Split a character list at newline characters (keeping empty pieces). -/
def splitNl : List Char → List (List Char)
  | [] => [[]]
  | c :: rest =>
    if c = '\n' then [] :: splitNl rest
    else
      match splitNl rest with
      | [] => [[c]]
      | h :: t => (c :: h) :: t

/-- Model of Python `str.splitlines()` for newline-separated text:
the empty string gives no lines, and a final newline does not produce a
trailing empty line. -/
def pySplitlines (s : String) : List String :=
  if s.data = [] then []
  else
    (if s.data.getLast? = some '\n' then (splitNl s.data).dropLast
     else splitNl s.data).map String.mk

/-- Join character-list lines with a newline separator
(model of `"\n".join` at the character level). -/
def joinChars : List (List Char) → List Char
  | [] => []
  | [x] => x
  | x :: y :: rest => x ++ '\n' :: joinChars (y :: rest)

/-- Model of Python `"\n".join(lines)`. -/
def joinNl (lines : List String) : String :=
  String.mk (joinChars (lines.map String.data))

/-- Drop every trailing newline character (model of `str.rstrip("\n")`
at the character level). -/
def dropTrailNl : List Char → List Char
  | [] => []
  | c :: rest =>
    match dropTrailNl rest with
    | [] => if c = '\n' then [] else [c]
    | ds => c :: ds

/-- Model of Python `s.rstrip("\n")`. -/
def rstripNl (s : String) : String :=
  String.mk (dropTrailNl s.data)

/-- Drop every trailing empty line of a line list (the line-level image of
`rstrip("\n")` after a newline join). -/
def stripTrailEmpty : List String → List String
  | [] => []
  | x :: rest =>
    match stripTrailEmpty rest with
    | [] => if x.data = [] then [] else [x]
    | ys => x :: ys

/-! ## Configuration (src/core/config.py) -/

/-- IP address blocked domains are redirected to (`REDIRECT_IP`). -/
def REDIRECT_IP : String := "127.0.0.1"

/-- Hour of the day at which daily usage counters reset (`RESET_HOUR`). -/
def RESET_HOUR : Nat := 4

/-- Static platform descriptor (the `Platform` dataclass). -/
structure Platform where
  id : String
  display_name : String
  daily_limit_minutes : Int
  domains : List String
  marker_tag : String
deriving Repr, DecidableEq

/-- Start marker of a platform's hosts-file block section. -/
def Platform.marker_start (p : Platform) : String :=
  "# >>> DARKPAUSE-" ++ p.marker_tag ++ "-START <<<"

/-- End marker of a platform's hosts-file block section. -/
def Platform.marker_end (p : Platform) : String :=
  "# >>> DARKPAUSE-" ++ p.marker_tag ++ "-END <<<"

/-- The `INSTAGRAM` platform constant of the configuration. -/
def INSTAGRAM : Platform :=
  { id := "instagram"
    display_name := "Instagram"
    daily_limit_minutes := 10
    domains := ["instagram.com", "www.instagram.com", "api.instagram.com",
      "i.instagram.com", "graph.instagram.com", "l.instagram.com",
      "static.cdninstagram.com", "scontent.cdninstagram.com",
      "edge-chat.instagram.com", "scontent-mad1-1.cdninstagram.com",
      "scontent-mad2-1.cdninstagram.com"]
    marker_tag := "INSTAGRAM" }

/-- The `YOUTUBE` platform constant of the configuration. -/
def YOUTUBE : Platform :=
  { id := "youtube"
    display_name := "YouTube"
    daily_limit_minutes := 60
    domains := ["youtube.com", "www.youtube.com", "m.youtube.com",
      "youtu.be", "youtube-nocookie.com", "www.youtube-nocookie.com",
      "youtubei.googleapis.com", "yt3.ggpht.com",
      "yt3.googleusercontent.com", "i.ytimg.com", "s.ytimg.com"]
    marker_tag := "YOUTUBE" }

/-! ## Hosts block manager (src/core/hosts_manager.py) -/

/-- Scan state of `_remove_existing_block`: accumulated output lines,
the inside-a-section flag, and the buffer of skipped section lines. -/
structure RemoveState where
  result : List String
  inside : Bool
  skipped : List String
deriving Repr, DecidableEq

/-- One line step of the `_remove_existing_block` scan. -/
def removeStep (ms me : String) (st : RemoveState) (line : String) : RemoveState :=
  if containsSub ms line then { st with inside := true, skipped := [] }
  else if st.inside && containsSub me line then { st with inside := false }
  else if st.inside then { st with skipped := st.skipped ++ [line] }
  else { st with result := st.result ++ [line] }

/-- Final step of `_remove_existing_block`: if the end marker was missing
(still inside at end of input) append the buffered lines back to the
output. -/
def finishRemove (st : RemoveState) : List String :=
  if st.inside && !st.skipped.isEmpty then st.result ++ st.skipped else st.result

/-- Line-level body of `_remove_existing_block`: scan all lines, then
restore the buffer when the end marker was missing. -/
def removeLines (ms me : String) (lines : List String) : List String :=
  finishRemove (lines.foldl (removeStep ms me) ⟨[], false, []⟩)

/-- `_remove_existing_block(content, platform)`: split into lines, scan,
and re-join with newlines. -/
def removeExistingBlock (content : String) (p : Platform) : String :=
  joinNl (removeLines p.marker_start p.marker_end (pySplitlines content))

/-- The comment line and the redirect lines of a platform's block section
(all section lines strictly between the two markers). -/
def sectionMids (p : Platform) : List String :=
  ("# DarkPause - " ++ p.display_name ++ " block")
    :: p.domains.map (fun d => REDIRECT_IP ++ " " ++ d)

/-- All lines of `_build_block_section(platform)`. -/
def sectionLines (p : Platform) : List String :=
  p.marker_start :: (sectionMids p ++ [p.marker_end])

/-- `_build_block_section(platform)` as a string. -/
def buildBlockSection (p : Platform) : String :=
  joinNl (sectionLines p)

/-- Content transformation of `block_platform`: remove any existing section,
strip trailing newlines, then append a blank line, the fresh section and a
final newline. -/
def blockTransform (p : Platform) (content : String) : String :=
  rstripNl (removeExistingBlock content p) ++ "\n\n" ++ buildBlockSection p ++ "\n"

/-- Content transformation of `unblock_platform`: remove the section. -/
def unblockTransform (p : Platform) (content : String) : String :=
  removeExistingBlock content p

/-- Number of lines of a text containing a marker (markers contain no
newline, so substring occurrences of a marker lie within lines). -/
def countMarkerLines (marker content : String) : Nat :=
  (pySplitlines content).countP (fun l => containsSub marker l)

/-- Well-formedness of a platform descriptor as configured: no interior
section line contains a marker, neither marker contains the other, and no
section line contains a newline.  Holds for every configured platform. -/
def Platform.wellFormed (p : Platform) : Prop :=
  (∀ l ∈ sectionMids p, containsSub p.marker_start l = false ∧ containsSub p.marker_end l = false)
  ∧ containsSub p.marker_start p.marker_end = false
  ∧ containsSub p.marker_end p.marker_start = false
  ∧ (∀ l ∈ sectionLines p, '\n' ∉ l.data)

instance (p : Platform) : Decidable p.wellFormed := by
  unfold Platform.wellFormed; infer_instance

/-! ## Fallible I/O model for the hosts manager -/

/-- Python exception classes relevant to the hosts manager: a
`PermissionError` or any other `OSError`-like failure. -/
inductive PyErr where
  | permission
  | other
deriving Repr, DecidableEq

/-- Failure pattern of one `_write_hosts_file` call: whether the atomic
temp-file write raises, and whether the direct fallback write raises. -/
structure WriteEnv where
  atomicErr : Option PyErr
  fallbackErr : Option PyErr
deriving Repr, DecidableEq

/-- `_write_hosts_file(content)`: try the atomic write; on any failure fall
back to a direct write; on any further failure only log.  The function
never raises; the returned string is the resulting file content
(`prev` if both writes failed, leaving the file unchanged). -/
def writeHostsFile (env : WriteEnv) (prev newContent : String) : String :=
  match env.atomicErr with
  | none => newContent
  | some _ =>
    match env.fallbackErr with
    | none => newContent
    | some _ => prev

/-- `block_platform(platform)`: on a read failure of any kind the handler
returns `False`; otherwise the rewritten content is handed to
`_write_hosts_file` and the call returns `True`.
Result: (returned bool, resulting hosts-file content). -/
def blockPlatformRun (readErr : Option PyErr) (env : WriteEnv)
    (file : String) (p : Platform) : Bool × String :=
  match readErr with
  | some _ => (false, file)
  | none => (true, writeHostsFile env file (blockTransform p file))

/-- `unblock_platform(platform)`, same outcome model as `blockPlatformRun`. -/
def unblockPlatformRun (readErr : Option PyErr) (env : WriteEnv)
    (file : String) (p : Platform) : Bool × String :=
  match readErr with
  | some _ => (false, file)
  | none => (true, writeHostsFile env file (unblockTransform p file))

/-- `is_blocked(platform)`: both markers present in the file content;
any read error yields `False`. -/
def isBlockedRun (readRes : Except PyErr String) (p : Platform) : Bool :=
  match readRes with
  | .error _ => false
  | .ok content => containsSub p.marker_start content && containsSub p.marker_end content

/-! ## Usage tracker (src/core/usage_tracker.py) -/

/-- A local wall-clock instant, reduced to what the tracker reads of it:
the calendar day (as a day index) and the hour of day. -/
structure SimTime where
  day : Int
  hour : Nat
deriving Repr, DecidableEq

/-- `_get_logical_day_str()`: before `RESET_HOUR` the logical day is still
yesterday's calendar date. -/
def logicalDay (now : SimTime) : Int :=
  if now.hour < RESET_HOUR then now.day - 1 else now.day

/-- One platform's usage ledger record (`UsageData`). -/
structure UsageData where
  date : Int
  used_seconds : ℚ
  sessions : Int
deriving Repr, DecidableEq

/-- State of a platform's usage ledger file on disk. -/
inductive UsageFile where
  | absent
  | corrupt
  | stored (d : UsageData)
deriving Repr, DecidableEq

/-- The fresh record `_load_data` fabricates for a new logical day. -/
def freshUsage (today : Int) : UsageData :=
  ⟨today, 0, 0⟩

/-- `_load_data(platform)`: a stored record is returned only when its date
equals the current logical day; otherwise (absent, corrupt or stale) a
fresh zero record is fabricated.  The file itself is not modified. -/
def loadData (fs : UsageFile) (today : Int) : UsageData :=
  match fs with
  | .stored d => if d.date = today then d else freshUsage today
  | _ => freshUsage today

/-- `get_used_seconds(platform)`: read-only; returns the file state it
leaves behind (unchanged) and the used-seconds value. -/
def getUsedSeconds (fs : UsageFile) (today : Int) : UsageFile × ℚ :=
  (fs, (loadData fs today).used_seconds)

/-- `add_usage(platform, seconds)`: load, add, save. -/
def addUsage (fs : UsageFile) (today : Int) (s : ℚ) : UsageFile × ℚ :=
  let d := loadData fs today
  let d2 := { d with used_seconds := d.used_seconds + s }
  (.stored d2, d2.used_seconds)

/-- `increment_session_count(platform)`: load, increment, save. -/
def incrementSessionCount (fs : UsageFile) (today : Int) : UsageFile × Int :=
  let d := loadData fs today
  let d2 := { d with sessions := d.sessions + 1 }
  (.stored d2, d2.sessions)

/-- `reset_platform(platform)`: save a fresh zero record. -/
def resetPlatform (today : Int) : UsageFile :=
  .stored (freshUsage today)

/-- `get_remaining_seconds(platform)`: daily limit minus used, clamped at 0. -/
def getRemainingSeconds (p : Platform) (fs : UsageFile) (today : Int) : ℚ :=
  max 0 ((p.daily_limit_minutes : ℚ) * 60 - (getUsedSeconds fs today).2)

/-- Apply a sequence of `add_usage` calls within one logical day. -/
def applyAdds (today : Int) (fs : UsageFile) (deltas : List ℚ) : UsageFile :=
  deltas.foldl (fun f s => (addUsage f today s).1) fs

/-- A usage-tracker operation on one platform's ledger. -/
inductive TrackerOp where
  | getUsed
  | add (s : ℚ)
  | incSession
  | reset
deriving Repr

/-- File state left behind by one tracker operation. -/
def applyOp (today : Int) (fs : UsageFile) : TrackerOp → UsageFile
  | .getUsed => (getUsedSeconds fs today).1
  | .add s => (addUsage fs today s).1
  | .incSession => (incrementSessionCount fs today).1
  | .reset => resetPlatform today

/-- File state after a sequence of tracker operations within one day. -/
def applyOps (today : Int) (fs : UsageFile) (ops : List TrackerOp) : UsageFile :=
  ops.foldl (applyOp today) fs

/-- The stored used-seconds value is non-negative (vacuous when no record
is stored). -/
def usedOkB : UsageFile → Bool
  | .stored d => decide (0 ≤ d.used_seconds)
  | _ => true

/-- Every `add` operation of the sequence carries a non-negative delta. -/
def addsNonnegB : List TrackerOp → Bool
  | [] => true
  | .add s :: rest => decide (0 ≤ s) && addsNonnegB rest
  | _ :: rest => addsNonnegB rest

/-! ## Blackout session persistence (src/ui/blackout.py) -/

/-- Persisted blackout state (`blackout_state.json`): absolute end time as
epoch seconds, the original duration, and the lock flag. -/
structure BlackoutData where
  end_epoch : ℚ
  duration_minutes : Int
  locked : Bool
deriving Repr, DecidableEq

/-- State of the blackout state file on disk. -/
inductive BlackoutFile where
  | absent
  | corrupt
  | stored (b : BlackoutData)
deriving Repr, DecidableEq

/-- Python `int(q)`: truncation toward zero on rationals. -/
def pyIntTrunc (q : ℚ) : Int :=
  if 0 ≤ q then ⌊q⌋ else -⌊-q⌋

/-- `load_persisted_blackout()`: remaining time is end time minus now; a
session resumes only when strictly more than 60 seconds remain, returning
`max 1 (int(remaining / 60))` minutes and the lock flag; otherwise (expired,
within the one-minute threshold, or corrupt) the file is deleted and `None`
is returned.  Result: (returned value, file state left behind). -/
def loadPersistedBlackout (f : BlackoutFile) (now : ℚ) :
    Option (Int × Bool) × BlackoutFile :=
  match f with
  | .absent => (none, .absent)
  | .corrupt => (none, .absent)
  | .stored b =>
    if 60 < b.end_epoch - now then
      (some (max 1 (pyIntTrunc ((b.end_epoch - now) / 60)), b.locked), .stored b)
    else (none, .absent)

/-! ## Allowlist firewall mode (src/core/firewall_manager.py) -/

/-- Externally visible action of the allowlist enable/disable paths, in
program order. -/
inductive FwAction where
  | clearStopEvent
  | deleteRule (name : String)
  | addRule (name : String)
  | startRefreshThread
  | stopRefreshThread
  | writeFlag
  | clearFlag
deriving Repr, DecidableEq

/-- Name of the block-all-outbound allowlist rule. -/
def allowlistBlockAllRule : String := "DarkPause-Allowlist-BlockAll"

/-- Name of the allow-resolved-IPs allowlist rule. -/
def allowlistAllowZeroRule : String := "DarkPause-Allowlist-Allow-0"

/-- Name of the allow-local-subnet allowlist rule. -/
def allowlistAllowLocalRule : String := "DarkPause-Allowlist-Allow-local"

/-- Action trace of `_apply_allowlist_rules`: delete the three rules, then
attempt the block-all rule; only if it succeeds, add the allow rules. -/
def applyAllowlistRulesActions (blockOk : Bool) : List FwAction :=
  [.deleteRule allowlistBlockAllRule, .deleteRule allowlistAllowZeroRule,
    .deleteRule allowlistAllowLocalRule]
  ++ (if blockOk then
        [.addRule allowlistBlockAllRule, .addRule allowlistAllowZeroRule,
          .addRule allowlistAllowLocalRule]
      else [.addRule allowlistBlockAllRule])

/-- Action trace and return value of `enable_allowlist_mode()`: when not
already active, clear the stop event, apply the rules, and only on success
start the refresh thread and then persist the crash-recovery flag. -/
def enableAllowlistActions (alreadyActive blockOk : Bool) : List FwAction × Bool :=
  if alreadyActive then ([], true)
  else
    let t := FwAction.clearStopEvent :: applyAllowlistRulesActions blockOk
    if blockOk then (t ++ [.startRefreshThread, .writeFlag], true)
    else (t, false)

/-- Action trace of `disable_allowlist_mode()`: stop the refresh thread,
delete all three rules, then clear the crash-recovery flag. -/
def disableAllowlistActions : List FwAction :=
  [.stopRefreshThread, .deleteRule allowlistBlockAllRule,
    .deleteRule allowlistAllowZeroRule, .deleteRule allowlistAllowLocalRule,
    .clearFlag]

/-! ## Basic lemmas about the string primitives -/

theorem strMk_data (s : String) : String.mk s.data = s := rfl

theorem charsStartWith_refl (l : List Char) : charsStartWith l l = true := by
  induction l with
  | nil => rfl
  | cons a as ih => simp [charsStartWith, ih]

theorem charsContain_self (l : List Char) : charsContain l l = true := by
  cases l with
  | nil => rfl
  | cons a as => simp [charsContain, charsStartWith_refl]

theorem containsSub_self (s : String) : containsSub s s = true :=
  charsContain_self s.data

theorem containsSub_empty_of_ne (pat : String) (h : pat.data ≠ []) :
    containsSub pat "" = false := by
  have hd : ("" : String).data = [] := rfl
  unfold containsSub
  rw [hd]
  cases hpat : pat.data with
  | nil => exact absurd hpat h
  | cons c cs => rfl

theorem marker_start_data_ne (p : Platform) : (p.marker_start).data ≠ [] := by
  unfold Platform.marker_start
  rw [String.data_append, String.data_append]
  intro h
  have h1 := (List.append_eq_nil.mp h).1
  have h2 := (List.append_eq_nil.mp h1).1
  revert h2
  decide

theorem marker_end_data_ne (p : Platform) : (p.marker_end).data ≠ [] := by
  unfold Platform.marker_end
  rw [String.data_append, String.data_append]
  intro h
  have h1 := (List.append_eq_nil.mp h).1
  have h2 := (List.append_eq_nil.mp h1).1
  revert h2
  decide

/-! ## Lemmas about splitNl and joinChars -/

theorem splitNl_ne_nil (l : List Char) : splitNl l ≠ [] := by
  cases l with
  | nil => simp [splitNl]
  | cons c rest =>
    unfold splitNl
    by_cases h : c = '\n'
    · simp [h]
    · simp only [h, if_false]
      cases splitNl rest with
      | nil => simp
      | cons a b => simp

theorem splitNl_cons_eq (c : Char) (rest : List Char) (a : List Char)
    (b : List (List Char)) (hc : c ≠ '\n') (h : splitNl rest = a :: b) :
    splitNl (c :: rest) = (c :: a) :: b := by
  rw [splitNl, if_neg hc, h]

theorem splitNl_sep (xs ys : List Char) (h : '\n' ∉ xs) :
    splitNl (xs ++ '\n' :: ys) = xs :: splitNl ys := by
  induction xs with
  | nil => simp [splitNl]
  | cons c cs ih =>
    have hc : c ≠ '\n' := fun he => h (he ▸ List.mem_cons_self c cs)
    have hcs : '\n' ∉ cs := fun hm => h (List.mem_cons_of_mem c hm)
    rw [List.cons_append]
    rw [splitNl_cons_eq c _ cs (splitNl ys) hc (ih hcs)]

theorem splitNl_no_sep (xs : List Char) (h : '\n' ∉ xs) : splitNl xs = [xs] := by
  induction xs with
  | nil => rfl
  | cons c cs ih =>
    have hc : c ≠ '\n' := fun he => h (he ▸ List.mem_cons_self c cs)
    have hcs : '\n' ∉ cs := fun hm => h (List.mem_cons_of_mem c hm)
    rw [splitNl_cons_eq c cs cs [] hc (ih hcs)]

theorem mem_splitNl_no_nl (l : List Char) (part : List Char)
    (hm : part ∈ splitNl l) : '\n' ∉ part := by
  induction l generalizing part with
  | nil =>
    simp only [splitNl, List.mem_singleton] at hm
    subst hm; simp
  | cons c rest ih =>
    unfold splitNl at hm
    by_cases hc : c = '\n'
    · simp only [hc, if_true] at hm
      rcases List.mem_cons.mp hm with h | h
      · subst h; simp
      · exact ih part h
    · simp only [hc, if_false] at hm
      cases hsp : splitNl rest with
      | nil => exact absurd hsp (splitNl_ne_nil rest)
      | cons a b =>
        rw [hsp] at hm
        rcases List.mem_cons.mp hm with h | h
        · subst h
          intro hmem
          rcases List.mem_cons.mp hmem with h1 | h1
          · exact hc h1.symm
          · exact ih a (hsp ▸ List.mem_cons_self a b) h1
        · exact ih part (hsp ▸ List.mem_cons_of_mem a h)

theorem joinChars_cons (x : List Char) (M : List (List Char)) (h : M ≠ []) :
    joinChars (x :: M) = x ++ '\n' :: joinChars M := by
  cases M with
  | nil => exact absurd rfl h
  | cons y rest => rfl

theorem splitNl_joinChars_concat (M : List (List Char)) (hM : M ≠ [])
    (h : ∀ x ∈ M, '\n' ∉ x) :
    splitNl (joinChars M ++ ['\n']) = M ++ [[]] := by
  induction M with
  | nil => exact absurd rfl hM
  | cons x rest ih =>
    cases rest with
    | nil =>
      have hx : '\n' ∉ x := h x (List.mem_cons_self x [])
      show splitNl (x ++ '\n' :: []) = [x, []]
      rw [splitNl_sep x [] hx]
      rfl
    | cons y rest2 =>
      have hx : '\n' ∉ x := h x (List.mem_cons_self x (y :: rest2))
      rw [joinChars_cons x (y :: rest2) (by simp)]
      have : x ++ '\n' :: joinChars (y :: rest2) ++ ['\n']
          = x ++ '\n' :: (joinChars (y :: rest2) ++ ['\n']) := by simp
      rw [this, splitNl_sep x _ hx]
      rw [ih (by simp) (fun z hz => h z (List.mem_cons_of_mem x hz))]
      rfl

/-! ## Lemmas about pySplitlines on joined line lists -/

theorem data_joinNl (L : List String) :
    (joinNl L).data = joinChars (L.map String.data) := rfl

theorem joinNl_nil : joinNl [] = "" := rfl

theorem pySplitlines_joinNl (L : List String) (hL : L ≠ [])
    (h : ∀ s ∈ L, '\n' ∉ s.data) :
    pySplitlines (joinNl L ++ "\n") = L := by
  have hdata : (joinNl L ++ "\n").data = joinChars (L.map String.data) ++ ['\n'] := by
    rw [String.data_append, data_joinNl]
  have hM : L.map String.data ≠ [] := by
    intro hmap
    exact hL (List.map_eq_nil_iff.mp hmap)
  have hnl : ∀ x ∈ L.map String.data, '\n' ∉ x := by
    intro x hx
    rcases List.mem_map.mp hx with ⟨s, hs, rfl⟩
    exact h s hs
  have hsplit : splitNl ((joinNl L ++ "\n").data)
      = L.map String.data ++ [[]] := by
    rw [hdata]
    exact splitNl_joinChars_concat (L.map String.data) hM hnl
  have hne : (joinNl L ++ "\n").data ≠ [] := by
    rw [hdata]; simp
  have hlast : (joinNl L ++ "\n").data.getLast? = some '\n' := by
    rw [hdata]
    rw [List.getLast?_concat]
  unfold pySplitlines
  rw [if_neg hne, if_pos hlast, hsplit, List.dropLast_concat]
  rw [List.map_map]
  have : (String.mk ∘ String.data) = id := by
    funext s
    exact strMk_data s
  rw [this, List.map_id]

theorem mem_pySplitlines_no_nl (s : String) (l : String)
    (hm : l ∈ pySplitlines s) : '\n' ∉ l.data := by
  unfold pySplitlines at hm
  by_cases hne : s.data = []
  · rw [if_pos hne] at hm
    exact absurd hm (List.not_mem_nil l)
  · rw [if_neg hne] at hm
    rcases List.mem_map.mp hm with ⟨part, hpart, rfl⟩
    have hpart2 : part ∈ splitNl s.data := by
      by_cases hlast : s.data.getLast? = some '\n'
      · rw [if_pos hlast] at hpart
        exact List.dropLast_subset _ hpart
      · rw [if_neg hlast] at hpart
        exact hpart
    exact mem_splitNl_no_nl s.data part hpart2

/-! ## Lemmas about rstrip and trailing-empty stripping -/

theorem dropTrailNl_cons (c : Char) (cs : List Char) :
    dropTrailNl (c :: cs)
      = match dropTrailNl cs with
        | [] => if c = '\n' then [] else [c]
        | ds => c :: ds := rfl

theorem dropTrailNl_no_nl (l : List Char) (h : '\n' ∉ l) : dropTrailNl l = l := by
  induction l with
  | nil => rfl
  | cons c cs ih =>
    have hc : c ≠ '\n' := fun he => h (he ▸ List.mem_cons_self c cs)
    have hcs : '\n' ∉ cs := fun hm => h (List.mem_cons_of_mem c hm)
    rw [dropTrailNl_cons, ih hcs]
    cases hcase : cs with
    | nil => simp [hc]
    | cons a b => rfl

theorem dropTrailNl_append (a b : List Char) :
    dropTrailNl (a ++ b)
      = if dropTrailNl b = [] then dropTrailNl a else a ++ dropTrailNl b := by
  induction a with
  | nil =>
    by_cases hb : dropTrailNl b = []
    · rw [List.nil_append, if_pos hb, hb]
      rfl
    · rw [List.nil_append, if_neg hb, List.nil_append]
  | cons c cs ih =>
    by_cases hb : dropTrailNl b = []
    · have h1 : dropTrailNl (cs ++ b) = dropTrailNl cs := by
        rw [ih, if_pos hb]
      rw [List.cons_append, dropTrailNl_cons, h1, ← dropTrailNl_cons, if_pos hb]
    · have h1 : dropTrailNl (cs ++ b) = cs ++ dropTrailNl b := by
        rw [ih, if_neg hb]
      rw [List.cons_append, dropTrailNl_cons, h1, if_neg hb]
      have hne : cs ++ dropTrailNl b ≠ [] := by
        intro hnil
        exact hb (List.append_eq_nil.mp hnil).2
      rcases List.exists_cons_of_ne_nil hne with ⟨x, y, hxy⟩
      simp [hxy]

theorem joinChars_eq_nil_iff (M : List (List Char)) :
    joinChars M = [] ↔ M = [] ∨ M = [[]] := by
  cases M with
  | nil => simp [joinChars]
  | cons x rest =>
    cases rest with
    | nil =>
      simp only [joinChars]
      constructor
      · intro h; right; rw [h]
      · intro h
        rcases h with h | h
        · exact absurd h (by simp)
        · injection h with h1 h2
    | cons y rest2 =>
      rw [joinChars_cons x (y :: rest2) (by simp)]
      simp

theorem stripTrailEmpty_getLast_ne (X : List String) :
    (stripTrailEmpty X).getLast? ≠ some "" := by
  induction X with
  | nil => simp [stripTrailEmpty]
  | cons x rest ih =>
    unfold stripTrailEmpty
    cases hcase : stripTrailEmpty rest with
    | nil =>
      by_cases hx : x.data = []
      · simp [hx]
      · rw [if_neg hx]
        intro he
        have hxe : x = "" := by
          have h2 : (([x] : List String)).getLast? = some x := rfl
          rw [h2] at he
          exact Option.some.inj he
        exact hx (by rw [hxe])
    | cons y ys =>
      rw [hcase] at ih
      rw [List.getLast?_cons_cons]
      exact ih

theorem stripTrailEmpty_sub (X : List String) (l : String)
    (hm : l ∈ stripTrailEmpty X) : l ∈ X := by
  induction X with
  | nil => simp [stripTrailEmpty] at hm
  | cons x rest ih =>
    unfold stripTrailEmpty at hm
    cases hcase : stripTrailEmpty rest with
    | nil =>
      rw [hcase] at hm
      by_cases hx : x.data = []
      · rw [if_pos hx] at hm
        exact absurd hm (List.not_mem_nil l)
      · rw [if_neg hx] at hm
        rw [List.mem_singleton] at hm
        exact hm ▸ List.mem_cons_self x rest
    | cons y ys =>
      rw [hcase] at hm
      rcases List.mem_cons.mp hm with h | h
      · exact h ▸ List.mem_cons_self x rest
      · exact List.mem_cons_of_mem x (ih (hcase ▸ h))

theorem stripTrailEmpty_cons_of_nil (x : String) (rest : List String)
    (h : stripTrailEmpty rest = []) :
    stripTrailEmpty (x :: rest) = if x.data = [] then [] else [x] := by
  unfold stripTrailEmpty
  rw [h]

theorem stripTrailEmpty_cons_of_cons (x y : String) (ys rest : List String)
    (h : stripTrailEmpty rest = y :: ys) :
    stripTrailEmpty (x :: rest) = x :: y :: ys := by
  unfold stripTrailEmpty
  rw [h]

theorem rstripNl_joinNl (R : List String) (h : ∀ l ∈ R, '\n' ∉ l.data) :
    rstripNl (joinNl R) = joinNl (stripTrailEmpty R) := by
  apply String.ext
  show dropTrailNl (joinChars (R.map String.data))
      = joinChars ((stripTrailEmpty R).map String.data)
  induction R with
  | nil => rfl
  | cons x rest ih =>
    have hx : '\n' ∉ x.data := h x (List.mem_cons_self x rest)
    have hrest : ∀ l ∈ rest, '\n' ∉ l.data :=
      fun l hl => h l (List.mem_cons_of_mem x hl)
    cases rest with
    | nil =>
      show dropTrailNl (joinChars [x.data]) = _
      simp only [joinChars]
      rw [dropTrailNl_no_nl x.data hx]
      show x.data = joinChars ((stripTrailEmpty [x]).map String.data)
      unfold stripTrailEmpty
      by_cases hxe : x.data = []
      · simp only [stripTrailEmpty, hxe, if_pos]
        simp [joinChars, hxe]
      · simp only [stripTrailEmpty, hxe, if_neg, if_false]
        rfl
    | cons y rest2 =>
      rw [List.map_cons, joinChars_cons x.data _ (by simp)]
      rw [dropTrailNl_append]
      have hjoin : dropTrailNl ('\n' :: joinChars ((y :: rest2).map String.data))
          = if dropTrailNl (joinChars ((y :: rest2).map String.data)) = []
            then [] else '\n' :: dropTrailNl (joinChars ((y :: rest2).map String.data)) := by
        rw [dropTrailNl_cons]
        by_cases hj : dropTrailNl (joinChars ((y :: rest2).map String.data)) = []
        · rw [hj]; simp
        · rcases List.exists_cons_of_ne_nil hj with ⟨a, b, hab⟩
          rw [hab]
          simp [hab]
      rw [hjoin]
      rw [ih hrest] at hjoin ⊢
      by_cases hstrip : stripTrailEmpty (y :: rest2) = []
      · have hjc : joinChars ((stripTrailEmpty (y :: rest2)).map String.data) = [] := by
          rw [hstrip]; rfl
        rw [hjc]
        simp only [if_pos rfl]
        show dropTrailNl x.data = joinChars ((stripTrailEmpty (x :: y :: rest2)).map String.data)
        rw [dropTrailNl_no_nl x.data hx]
        unfold stripTrailEmpty
        rw [show stripTrailEmpty (y :: rest2) = [] from hstrip]
        by_cases hxe : x.data = []
        · simp [hxe, joinChars]
        · simp only [hxe, if_neg, if_false]
          rfl
      · have hjc : joinChars ((stripTrailEmpty (y :: rest2)).map String.data) ≠ [] := by
          intro hnil
          rcases (joinChars_eq_nil_iff _).mp hnil with h1 | h1
          · exact hstrip (List.map_eq_nil_iff.mp h1)
          · have : (stripTrailEmpty (y :: rest2)).map String.data = [[]] := h1
            cases hc2 : stripTrailEmpty (y :: rest2) with
            | nil => exact hstrip hc2
            | cons a b =>
              rw [hc2] at this
              rw [List.map_cons] at this
              injection this with ha hb
              have hanil : a = "" := by
                apply String.ext
                rw [ha]
              have hblast : b = [] := List.map_eq_nil_iff.mp hb
              have := stripTrailEmpty_getLast_ne (y :: rest2)
              rw [hc2, hanil, hblast] at this
              simp at this
        rw [if_neg hjc]
        rw [if_neg (show ('\n' :: joinChars ((stripTrailEmpty (y :: rest2)).map String.data)) ≠ [] from by simp)]
        show x.data ++ '\n' :: joinChars ((stripTrailEmpty (y :: rest2)).map String.data)
            = joinChars ((stripTrailEmpty (x :: y :: rest2)).map String.data)
        rcases List.exists_cons_of_ne_nil hstrip with ⟨a, b, hc2⟩
        rw [stripTrailEmpty_cons_of_cons x a b (y :: rest2) hc2, hc2]
        rw [show (x :: a :: b).map String.data = x.data :: (a :: b).map String.data from rfl]
        rw [joinChars_cons x.data _ (by simp)]

theorem stripTrailEmpty_concat_empty (X : List String) :
    stripTrailEmpty (X ++ [""]) = stripTrailEmpty X := by
  induction X with
  | nil => rfl
  | cons x rest ih =>
    show stripTrailEmpty (x :: (rest ++ [""])) = _
    unfold stripTrailEmpty
    rw [ih]

theorem stripTrailEmpty_idem (X : List String) :
    stripTrailEmpty (stripTrailEmpty X) = stripTrailEmpty X := by
  induction X with
  | nil => rfl
  | cons x rest ih =>
    cases hcase : stripTrailEmpty rest with
    | nil =>
      by_cases hx : x.data = []
      · rw [stripTrailEmpty_cons_of_nil x rest hcase, if_pos hx]
        rfl
      · rw [stripTrailEmpty_cons_of_nil x rest hcase, if_neg hx]
        rw [stripTrailEmpty_cons_of_nil x [] rfl, if_neg hx]
    | cons y ys =>
      rw [stripTrailEmpty_cons_of_cons x y ys rest hcase]
      have h2 : stripTrailEmpty (y :: ys) = y :: ys := by
        conv_lhs => rw [← hcase]
        rw [ih, hcase]
      rw [stripTrailEmpty_cons_of_cons x y ys (y :: ys) h2]

theorem stripTrailEmpty_of_getLast (X : List String) (h : X.getLast? ≠ some "") :
    stripTrailEmpty X = X := by
  induction X with
  | nil => rfl
  | cons x rest ih =>
    cases hrest : rest with
    | nil =>
      have hx : x ≠ "" := by
        intro he
        exact h (by rw [hrest, he]; rfl)
      have hxd : x.data ≠ [] := by
        intro hd
        exact hx (String.ext hd)
      show stripTrailEmpty [x] = [x]
      unfold stripTrailEmpty
      rw [if_neg hxd]
      rfl
    | cons y ys =>
      rw [hrest] at ih h
      have hlast : (y :: ys).getLast? ≠ some "" := by
        intro he
        apply h
        rw [List.getLast?_cons_cons]
        exact he
      have := ih hlast
      show stripTrailEmpty (x :: y :: ys) = x :: y :: ys
      unfold stripTrailEmpty
      rw [this]

/-! ## Lemmas about the removal scan -/

theorem removeStep_start (ms me line : String) (r : List String) (ins : Bool)
    (sk : List String) (h1 : containsSub ms line = true) :
    removeStep ms me ⟨r, ins, sk⟩ line = ⟨r, true, []⟩ := by
  simp [removeStep, h1]

theorem removeStep_endline (ms me line : String) (r sk : List String)
    (h1 : containsSub ms line = false) (h3 : containsSub me line = true) :
    removeStep ms me ⟨r, true, sk⟩ line = ⟨r, false, sk⟩ := by
  simp [removeStep, h1, h3]

theorem removeStep_buffer (ms me line : String) (r sk : List String)
    (h1 : containsSub ms line = false) (h3 : containsSub me line = false) :
    removeStep ms me ⟨r, true, sk⟩ line = ⟨r, true, sk ++ [line]⟩ := by
  simp [removeStep, h1, h3]

theorem removeStep_pass (ms me line : String) (r sk : List String)
    (h1 : containsSub ms line = false) :
    removeStep ms me ⟨r, false, sk⟩ line = ⟨r ++ [line], false, sk⟩ := by
  simp [removeStep, h1]

theorem finishRemove_outside (r sk : List String) :
    finishRemove ⟨r, false, sk⟩ = r := by
  simp [finishRemove]

theorem finishRemove_inside (r sk : List String) (h : sk ≠ []) :
    finishRemove ⟨r, true, sk⟩ = r ++ sk := by
  simp only [finishRemove]
  rw [if_pos]
  show (true && !sk.isEmpty) = true
  simp [h]

theorem foldRemove_pass (ms me : String) (X : List String) (r sk : List String)
    (h : ∀ l ∈ X, containsSub ms l = false) :
    X.foldl (removeStep ms me) ⟨r, false, sk⟩ = ⟨r ++ X, false, sk⟩ := by
  induction X generalizing r with
  | nil => simp
  | cons a X ih =>
    have ha : containsSub ms a = false := h a (List.mem_cons_self a X)
    rw [List.foldl_cons, removeStep_pass ms me a r sk ha]
    rw [ih (r ++ [a]) (fun l hl => h l (List.mem_cons_of_mem a hl))]
    simp

theorem foldRemove_buffer (ms me : String) (X : List String) (r sk : List String)
    (h : ∀ l ∈ X, containsSub ms l = false ∧ containsSub me l = false) :
    X.foldl (removeStep ms me) ⟨r, true, sk⟩ = ⟨r, true, sk ++ X⟩ := by
  induction X generalizing sk with
  | nil => simp
  | cons a X ih =>
    have ha := h a (List.mem_cons_self a X)
    rw [List.foldl_cons, removeStep_buffer ms me a r sk ha.1 ha.2]
    rw [ih (sk ++ [a]) (fun l hl => h l (List.mem_cons_of_mem a hl))]
    simp

theorem removeLines_pass (ms me : String) (X : List String)
    (h : ∀ l ∈ X, containsSub ms l = false) :
    removeLines ms me X = X := by
  unfold removeLines
  rw [foldRemove_pass ms me X [] [] h]
  rw [finishRemove_outside]
  rfl

theorem foldRemove_section (p : Platform) (r sk : List String)
    (hmid : ∀ l ∈ sectionMids p,
      containsSub p.marker_start l = false ∧ containsSub p.marker_end l = false)
    (hes : containsSub p.marker_start p.marker_end = false) :
    (sectionLines p).foldl (removeStep p.marker_start p.marker_end) ⟨r, false, sk⟩
      = ⟨r, false, sectionMids p⟩ := by
  unfold sectionLines
  rw [List.foldl_cons,
    removeStep_start p.marker_start p.marker_end p.marker_start r false sk
      (containsSub_self p.marker_start)]
  rw [List.foldl_append]
  rw [foldRemove_buffer p.marker_start p.marker_end (sectionMids p) r [] hmid]
  rw [List.foldl_cons]
  rw [removeStep_endline p.marker_start p.marker_end p.marker_end r
    ([] ++ sectionMids p) hes (containsSub_self p.marker_end)]
  simp

theorem removeLines_drop_section (p : Platform) (X : List String)
    (hX : ∀ l ∈ X, containsSub p.marker_start l = false)
    (hmid : ∀ l ∈ sectionMids p,
      containsSub p.marker_start l = false ∧ containsSub p.marker_end l = false)
    (hes : containsSub p.marker_start p.marker_end = false) :
    removeLines p.marker_start p.marker_end (X ++ sectionLines p) = X := by
  unfold removeLines
  rw [List.foldl_append]
  rw [foldRemove_pass p.marker_start p.marker_end X [] [] hX]
  rw [show (([] : List String) ++ X) = X from by simp]
  rw [foldRemove_section p X [] hmid hes]
  rw [finishRemove_outside]

theorem foldRemove_inv (ms me : String) (P : String → Prop) (X : List String)
    (st : RemoveState)
    (hX : ∀ a ∈ X, containsSub ms a = false → P a)
    (hres : ∀ l ∈ st.result, P l) (hskip : ∀ l ∈ st.skipped, P l) :
    (∀ l ∈ (X.foldl (removeStep ms me) st).result, P l)
    ∧ (∀ l ∈ (X.foldl (removeStep ms me) st).skipped, P l) := by
  induction X generalizing st with
  | nil => exact ⟨hres, hskip⟩
  | cons a X ih =>
    obtain ⟨r, ins, sk⟩ := st
    have hrest : ∀ b ∈ X, containsSub ms b = false → P b :=
      fun b hb => hX b (List.mem_cons_of_mem a hb)
    rw [List.foldl_cons]
    by_cases h1 : containsSub ms a = true
    · rw [removeStep_start ms me a r ins sk h1]
      exact ih ⟨r, true, []⟩ hrest hres (by simp)
    · have h1f : containsSub ms a = false := by
        cases hb : containsSub ms a
        · rfl
        · exact absurd hb h1
      have hPa : P a := hX a (List.mem_cons_self a X) h1f
      cases ins with
      | false =>
        rw [removeStep_pass ms me a r sk h1f]
        refine ih ⟨r ++ [a], false, sk⟩ hrest ?_ hskip
        intro l hl
        rcases List.mem_append.mp hl with h | h
        · exact hres l h
        · rw [List.mem_singleton] at h
          exact h ▸ hPa
      | true =>
        by_cases h3 : containsSub me a = true
        · rw [removeStep_endline ms me a r sk h1f h3]
          exact ih ⟨r, false, sk⟩ hrest hres hskip
        · have h3f : containsSub me a = false := by
            cases hb : containsSub me a
            · rfl
            · exact absurd hb h3
          rw [removeStep_buffer ms me a r sk h1f h3f]
          refine ih ⟨r, true, sk ++ [a]⟩ hrest hres ?_
          intro l hl
          rcases List.mem_append.mp hl with h | h
          · exact hskip l h
          · rw [List.mem_singleton] at h
            exact h ▸ hPa

theorem mem_removeLines_imp (ms me : String) (X : List String) (P : String → Prop)
    (hX : ∀ a ∈ X, containsSub ms a = false → P a) :
    ∀ l ∈ removeLines ms me X, P l := by
  intro l hm
  have hinv := foldRemove_inv ms me P X ⟨[], false, []⟩ hX (by simp) (by simp)
  unfold removeLines finishRemove at hm
  by_cases hc : ((X.foldl (removeStep ms me) ⟨[], false, []⟩).inside
      && !(X.foldl (removeStep ms me) ⟨[], false, []⟩).skipped.isEmpty) = true
  · rw [if_pos hc] at hm
    rcases List.mem_append.mp hm with h | h
    · exact hinv.1 l h
    · exact hinv.2 l h
  · rw [if_neg hc] at hm
    exact hinv.1 l hm

theorem mem_removeLines_no_start (ms me : String) (X : List String) (l : String)
    (hm : l ∈ removeLines ms me X) : containsSub ms l = false :=
  mem_removeLines_imp ms me X (fun a => containsSub ms a = false)
    (fun _ _ h => h) l hm

theorem mem_removeLines_sub (ms me : String) (X : List String) (l : String)
    (hm : l ∈ removeLines ms me X) : l ∈ X :=
  mem_removeLines_imp ms me X (fun a => a ∈ X) (fun a ha _ => ha) l hm

/-! ## Decomposition of the block transformation into lines -/

theorem joinChars_append (M N : List (List Char)) (hM : M ≠ []) (hN : N ≠ []) :
    joinChars (M ++ N) = joinChars M ++ '\n' :: joinChars N := by
  induction M with
  | nil => exact absurd rfl hM
  | cons x M ih =>
    cases M with
    | nil =>
      rw [List.singleton_append, joinChars_cons x N hN]
      rfl
    | cons y M2 =>
      rw [List.cons_append, joinChars_cons x ((y :: M2) ++ N) (by simp)]
      rw [ih (by simp)]
      rw [joinChars_cons x (y :: M2) (by simp)]
      simp

/-- The lines preceding the fresh section in the output of
`block_platform`: the cleaned content with trailing blank lines stripped,
followed by one separating blank line (two blank lines when the cleaned
content is empty, since the blank separator follows an empty prefix). -/
def paddedClean (p : Platform) (content : String) : List String :=
  if stripTrailEmpty (removeLines p.marker_start p.marker_end (pySplitlines content)) = []
  then ["", ""]
  else stripTrailEmpty (removeLines p.marker_start p.marker_end (pySplitlines content)) ++ [""]

theorem blockTransform_decomp (p : Platform) (content : String)
    (hnlS : ∀ l ∈ sectionLines p, '\n' ∉ l.data) :
    blockTransform p content = joinNl (paddedClean p content ++ sectionLines p) ++ "\n" := by
  have hRnl : ∀ l ∈ removeLines p.marker_start p.marker_end (pySplitlines content),
      '\n' ∉ l.data := fun l hl =>
    mem_pySplitlines_no_nl content l
      (mem_removeLines_sub p.marker_start p.marker_end (pySplitlines content) l hl)
  have hSne : (sectionLines p).map String.data ≠ [] := by
    unfold sectionLines
    simp
  unfold blockTransform removeExistingBlock buildBlockSection paddedClean
  rw [rstripNl_joinNl _ hRnl]
  by_cases hq : stripTrailEmpty (removeLines p.marker_start p.marker_end (pySplitlines content)) = []
  · rw [if_pos hq, hq, joinNl_nil]
    apply String.ext
    rw [String.data_append, String.data_append, String.data_append, String.data_append]
    rw [data_joinNl, data_joinNl]
    rw [show ((["", ""] ++ sectionLines p).map String.data)
        = [] :: [] :: (sectionLines p).map String.data from by simp]
    rw [joinChars_cons [] ([] :: (sectionLines p).map String.data) (by simp)]
    rw [joinChars_cons [] ((sectionLines p).map String.data) hSne]
    simp
  · rw [if_neg hq]
    apply String.ext
    rw [String.data_append, String.data_append, String.data_append, String.data_append]
    rw [data_joinNl, data_joinNl, data_joinNl]
    rw [show ((stripTrailEmpty (removeLines p.marker_start p.marker_end (pySplitlines content))
          ++ [""] ++ sectionLines p).map String.data)
        = (stripTrailEmpty (removeLines p.marker_start p.marker_end (pySplitlines content))).map String.data
          ++ ([] :: (sectionLines p).map String.data) from by simp]
    rw [joinChars_append _ ([] :: (sectionLines p).map String.data)
      (by simpa using hq) (by simp)]
    rw [joinChars_cons [] ((sectionLines p).map String.data) hSne]
    simp

theorem mem_paddedClean (p : Platform) (content : String) (l : String)
    (hm : l ∈ paddedClean p content) :
    l = "" ∨ l ∈ removeLines p.marker_start p.marker_end (pySplitlines content) := by
  unfold paddedClean at hm
  by_cases hq : stripTrailEmpty (removeLines p.marker_start p.marker_end (pySplitlines content)) = []
  · rw [if_pos hq] at hm
    left
    rcases List.mem_cons.mp hm with h | h
    · exact h
    · rw [List.mem_singleton] at h
      exact h
  · rw [if_neg hq] at hm
    rcases List.mem_append.mp hm with h | h
    · right
      exact stripTrailEmpty_sub _ l h
    · left
      rw [List.mem_singleton] at h
      exact h

theorem mem_paddedClean_no_start (p : Platform) (content : String) (l : String)
    (hm : l ∈ paddedClean p content) : containsSub p.marker_start l = false := by
  rcases mem_paddedClean p content l hm with h | h
  · rw [h]
    exact containsSub_empty_of_ne p.marker_start (marker_start_data_ne p)
  · exact mem_removeLines_no_start p.marker_start p.marker_end (pySplitlines content) l h

theorem mem_paddedClean_no_nl (p : Platform) (content : String) (l : String)
    (hm : l ∈ paddedClean p content) : '\n' ∉ l.data := by
  rcases mem_paddedClean p content l hm with h | h
  · rw [h]
    simp [String.data]
  · exact mem_pySplitlines_no_nl content l
      (mem_removeLines_sub p.marker_start p.marker_end (pySplitlines content) l h)

theorem pySplitlines_blockTransform (p : Platform) (content : String)
    (hnlS : ∀ l ∈ sectionLines p, '\n' ∉ l.data) :
    pySplitlines (blockTransform p content) = paddedClean p content ++ sectionLines p := by
  rw [blockTransform_decomp p content hnlS]
  apply pySplitlines_joinNl
  · intro hnil
    have : sectionLines p = [] := (List.append_eq_nil.mp hnil).2
    unfold sectionLines at this
    simp at this
  · intro s hs
    rcases List.mem_append.mp hs with h | h
    · exact mem_paddedClean_no_nl p content s h
    · exact hnlS s h

theorem stripTrailEmpty_paddedClean (p : Platform) (content : String) :
    stripTrailEmpty (paddedClean p content)
      = stripTrailEmpty (removeLines p.marker_start p.marker_end (pySplitlines content)) := by
  unfold paddedClean
  by_cases hq : stripTrailEmpty (removeLines p.marker_start p.marker_end (pySplitlines content)) = []
  · rw [if_pos hq, hq]
    rfl
  · rw [if_neg hq]
    rw [stripTrailEmpty_concat_empty]
    exact stripTrailEmpty_idem _

theorem removeLines_blockTransform (p : Platform) (content : String)
    (hmid : ∀ l ∈ sectionMids p,
      containsSub p.marker_start l = false ∧ containsSub p.marker_end l = false)
    (hes : containsSub p.marker_start p.marker_end = false)
    (hnlS : ∀ l ∈ sectionLines p, '\n' ∉ l.data) :
    removeLines p.marker_start p.marker_end (pySplitlines (blockTransform p content))
      = paddedClean p content := by
  rw [pySplitlines_blockTransform p content hnlS]
  exact removeLines_drop_section p (paddedClean p content)
    (mem_paddedClean_no_start p content) hmid hes

theorem paddedClean_blockTransform (p : Platform) (content : String)
    (hmid : ∀ l ∈ sectionMids p,
      containsSub p.marker_start l = false ∧ containsSub p.marker_end l = false)
    (hes : containsSub p.marker_start p.marker_end = false)
    (hnlS : ∀ l ∈ sectionLines p, '\n' ∉ l.data) :
    paddedClean p (blockTransform p content) = paddedClean p content := by
  conv_lhs => unfold paddedClean
  rw [removeLines_blockTransform p content hmid hes hnlS]
  rw [stripTrailEmpty_paddedClean p content]
  unfold paddedClean
  rfl

theorem blockTransform_idem (p : Platform) (content : String)
    (hmid : ∀ l ∈ sectionMids p,
      containsSub p.marker_start l = false ∧ containsSub p.marker_end l = false)
    (hes : containsSub p.marker_start p.marker_end = false)
    (hnlS : ∀ l ∈ sectionLines p, '\n' ∉ l.data) :
    blockTransform p (blockTransform p content) = blockTransform p content := by
  rw [blockTransform_decomp p (blockTransform p content) hnlS]
  rw [paddedClean_blockTransform p content hmid hes hnlS]
  rw [← blockTransform_decomp p content hnlS]

/-! ## Marker-line counting in the rendered section -/

theorem countP_paddedClean_start (p : Platform) (content : String) :
    (paddedClean p content).countP (fun l => containsSub p.marker_start l) = 0 := by
  apply List.countP_eq_zero.mpr
  intro l hl
  rw [mem_paddedClean_no_start p content l hl]
  simp

theorem countP_sectionLines_start (p : Platform)
    (hmid : ∀ l ∈ sectionMids p,
      containsSub p.marker_start l = false ∧ containsSub p.marker_end l = false)
    (hes : containsSub p.marker_start p.marker_end = false) :
    (sectionLines p).countP (fun l => containsSub p.marker_start l) = 1 := by
  unfold sectionLines
  rw [List.countP_cons, List.countP_append, List.countP_cons]
  rw [containsSub_self p.marker_start]
  have hmids : (sectionMids p).countP (fun l => containsSub p.marker_start l) = 0 := by
    apply List.countP_eq_zero.mpr
    intro l hl
    rw [(hmid l hl).1]
    simp
  rw [hmids, hes]
  simp

theorem countP_sectionLines_end (p : Platform)
    (hmid : ∀ l ∈ sectionMids p,
      containsSub p.marker_start l = false ∧ containsSub p.marker_end l = false)
    (hse : containsSub p.marker_end p.marker_start = false) :
    (sectionLines p).countP (fun l => containsSub p.marker_end l) = 1 := by
  unfold sectionLines
  rw [List.countP_cons, List.countP_append, List.countP_cons]
  rw [containsSub_self p.marker_end]
  have hmids : (sectionMids p).countP (fun l => containsSub p.marker_end l) = 0 := by
    apply List.countP_eq_zero.mpr
    intro l hl
    rw [(hmid l hl).2]
    simp
  rw [hmids, hse]
  simp

/-! # Claim theorems -/

/-- C1 (amended): for every hosts-file text in which the platform's start
marker occurs on exactly one line and its end marker occurs on no line,
`_remove_existing_block` appends every buffered line back into the output:
the result is exactly the lines before the start-marker line followed by
the lines after it, so every original domain line is preserved. -/
theorem c1_missing_end_marker_preserves_lines (p : Platform) (content : String)
    (pre post : List String) (sline : String)
    (hsplit : pySplitlines content = pre ++ sline :: post)
    (hs : containsSub p.marker_start sline = true)
    (hpre : ∀ l ∈ pre, containsSub p.marker_start l = false)
    (hpost : ∀ l ∈ post, containsSub p.marker_start l = false)
    (hnoend : ∀ l ∈ pySplitlines content, containsSub p.marker_end l = false) :
    removeLines p.marker_start p.marker_end (pySplitlines content) = pre ++ post
    ∧ removeExistingBlock content p = joinNl (pre ++ post) := by
  have hmain : removeLines p.marker_start p.marker_end (pySplitlines content)
      = pre ++ post := by
    rw [hsplit]
    unfold removeLines
    rw [List.foldl_append]
    rw [foldRemove_pass p.marker_start p.marker_end pre [] [] hpre]
    rw [show (([] : List String) ++ pre) = pre from by simp]
    rw [List.foldl_cons]
    rw [removeStep_start p.marker_start p.marker_end sline pre false [] hs]
    have hpost2 : ∀ l ∈ post,
        containsSub p.marker_start l = false ∧ containsSub p.marker_end l = false := by
      intro l hl
      refine ⟨hpost l hl, hnoend l ?_⟩
      rw [hsplit]
      exact List.mem_append_right pre (List.mem_cons_of_mem sline hl)
    rw [foldRemove_buffer p.marker_start p.marker_end post pre [] hpost2]
    rw [show (([] : List String) ++ post) = post from by simp]
    cases post with
    | nil =>
      rw [show finishRemove ⟨pre, true, []⟩ = pre from by simp [finishRemove]]
      simp
    | cons a b =>
      exact finishRemove_inside pre (a :: b) (by simp)
  exact ⟨hmain, by unfold removeExistingBlock; rw [hmain]⟩

/-- C1 witness input: a content whose INSTAGRAM start marker is present but
whose end marker is missing. -/
def c1Good : String := "# >>> DARKPAUSE-INSTAGRAM-START <<<\n127.0.0.1 instagram.com"

/-- C1 witness: on a section whose end marker is missing, the buffered
domain line is restored into the output. -/
theorem c1_missing_end_marker_preserves_lines_witness :
    removeLines INSTAGRAM.marker_start INSTAGRAM.marker_end (pySplitlines c1Good)
      = [] ++ ["127.0.0.1 instagram.com"]
    ∧ removeExistingBlock c1Good INSTAGRAM = joinNl ([] ++ ["127.0.0.1 instagram.com"]) :=
  c1_missing_end_marker_preserves_lines INSTAGRAM c1Good []
    ["127.0.0.1 instagram.com"] INSTAGRAM.marker_start
    (by decide) (by decide) (by decide) (by decide) (by decide)

/-- C1 counterexample input: the INSTAGRAM start marker occurs twice and
the end marker is missing. -/
def c1Bad : String := "# >>> DARKPAUSE-INSTAGRAM-START <<<\n127.0.0.1 instagram.com\n# >>> DARKPAUSE-INSTAGRAM-START <<<\n127.0.0.1 www.instagram.com"

/-- C1 counterexample: a hosts-file text in which INSTAGRAM's start marker
appears (twice) and its end marker is missing, yet removing the block
section loses the buffered domain line `127.0.0.1 instagram.com`: a second
start marker resets the buffer, discarding the lines buffered so far, so
the claim as stated (for every text with a start marker and no end marker,
every buffered line is appended back) is false. -/
theorem c1_counterexample :
    containsSub INSTAGRAM.marker_start c1Bad = true
    ∧ containsSub INSTAGRAM.marker_end c1Bad = false
    ∧ ("127.0.0.1 instagram.com" ∈ pySplitlines c1Bad)
    ∧ removeExistingBlock c1Bad INSTAGRAM = "127.0.0.1 www.instagram.com"
    ∧ containsSub "127.0.0.1 instagram.com" (removeExistingBlock c1Bad INSTAGRAM) = false := by
  decide

/-- C2 (amended): for every well-formed platform and every initial content,
after calling block twice the start marker occurs on exactly one line of
the hosts file; the end marker also occurs on exactly one line provided
the initial content has no stray end-marker line outside the managed
section (no end-marker line survives the removal scan). -/
theorem c2_block_twice_exactly_one_section (p : Platform) (content : String)
    (hwf : p.wellFormed) :
    countMarkerLines p.marker_start (blockTransform p (blockTransform p content)) = 1
    ∧ ((∀ l ∈ removeLines p.marker_start p.marker_end (pySplitlines content),
          containsSub p.marker_end l = false) →
        countMarkerLines p.marker_end (blockTransform p (blockTransform p content)) = 1) := by
  obtain ⟨hmid, hes, hse, hnlS⟩ := hwf
  have hlines : pySplitlines (blockTransform p (blockTransform p content))
      = paddedClean p content ++ sectionLines p := by
    rw [pySplitlines_blockTransform p (blockTransform p content) hnlS]
    rw [paddedClean_blockTransform p content hmid hes hnlS]
  constructor
  · unfold countMarkerLines
    rw [hlines, List.countP_append]
    rw [countP_paddedClean_start p content]
    rw [countP_sectionLines_start p hmid hes]
  · intro hstray
    unfold countMarkerLines
    rw [hlines, List.countP_append]
    have hpad : (paddedClean p content).countP (fun l => containsSub p.marker_end l) = 0 := by
      apply List.countP_eq_zero.mpr
      intro l hl
      rcases mem_paddedClean p content l hl with h | h
      · rw [h, containsSub_empty_of_ne p.marker_end (marker_end_data_ne p)]
        simp
      · rw [hstray l h]
        simp
    rw [hpad, countP_sectionLines_end p hmid hse]

/-- C2 witness: blocking INSTAGRAM twice on a plain hosts file leaves
exactly one start-marker line and one end-marker line. -/
theorem c2_block_twice_exactly_one_section_witness :
    countMarkerLines INSTAGRAM.marker_start
      (blockTransform INSTAGRAM (blockTransform INSTAGRAM "# hosts\n")) = 1
    ∧ countMarkerLines INSTAGRAM.marker_end
      (blockTransform INSTAGRAM (blockTransform INSTAGRAM "# hosts\n")) = 1 := by
  have h := c2_block_twice_exactly_one_section INSTAGRAM "# hosts\n" (by decide)
  exact ⟨h.1, h.2 (by decide)⟩

/-- C2 counterexample input: a stray INSTAGRAM end-marker line outside any
managed section. -/
def c2Bad : String := "# >>> DARKPAUSE-INSTAGRAM-END <<<\n# hosts\n"

/-- C2 counterexample: on an initial content holding a stray end-marker
line, calling block twice leaves the end marker on two lines (the stray
line passes through the removal scan untouched), refuting the claim that
for every initial content exactly one occurrence of each marker remains. -/
theorem c2_counterexample :
    countMarkerLines INSTAGRAM.marker_start
      (blockTransform INSTAGRAM (blockTransform INSTAGRAM c2Bad)) = 1
    ∧ countMarkerLines INSTAGRAM.marker_end
      (blockTransform INSTAGRAM (blockTransform INSTAGRAM c2Bad)) = 2 := by
  decide

/-- C3 (amended): for every well-formed platform and every initial content
that contains no start-marker occurrence, whose lines are newline-free,
and that ends in exactly one trailing newline (its last line is not
blank), block followed by unblock restores the content byte for byte. -/
theorem c3_block_unblock_roundtrip (p : Platform) (L : List String)
    (hwf : p.wellFormed)
    (hnlL : ∀ l ∈ L, '\n' ∉ l.data)
    (hnostart : ∀ l ∈ L, containsSub p.marker_start l = false)
    (hlast : L.getLast? ≠ some "") :
    unblockTransform p (blockTransform p (joinNl L ++ "\n")) = joinNl L ++ "\n" := by
  obtain ⟨hmid, hes, hse, hnlS⟩ := hwf
  unfold unblockTransform removeExistingBlock
  rw [removeLines_blockTransform p (joinNl L ++ "\n") hmid hes hnlS]
  cases L with
  | nil =>
    have h0 : (joinNl [] ++ "\n" : String) = "\n" := rfl
    rw [h0]
    have h1 : removeLines p.marker_start p.marker_end (pySplitlines "\n") = [""] := by
      rw [show pySplitlines "\n" = [""] from by decide]
      apply removeLines_pass
      intro l hl
      rw [List.mem_singleton] at hl
      rw [hl]
      exact containsSub_empty_of_ne p.marker_start (marker_start_data_ne p)
    unfold paddedClean
    rw [h1]
    rw [show stripTrailEmpty [""] = [] from by decide]
    rw [if_pos rfl]
    rfl
  | cons x L2 =>
    have hC : pySplitlines (joinNl (x :: L2) ++ "\n") = x :: L2 :=
      pySplitlines_joinNl (x :: L2) (by simp) hnlL
    have hrm : removeLines p.marker_start p.marker_end
        (pySplitlines (joinNl (x :: L2) ++ "\n")) = x :: L2 := by
      rw [hC]
      exact removeLines_pass p.marker_start p.marker_end (x :: L2) hnostart
    unfold paddedClean
    rw [hrm]
    rw [stripTrailEmpty_of_getLast (x :: L2) hlast]
    rw [if_neg (by simp)]
    apply String.ext
    rw [String.data_append, data_joinNl, data_joinNl]
    rw [show ((x :: L2) ++ [""]).map String.data = (x :: L2).map String.data ++ [[]] from by simp]
    rw [joinChars_append ((x :: L2).map String.data) [[]] (by simp) (by simp)]
    rfl

/-- C3 witness: blocking then unblocking INSTAGRAM on a two-line hosts
file ending in one newline restores it byte for byte. -/
theorem c3_block_unblock_roundtrip_witness :
    unblockTransform INSTAGRAM (blockTransform INSTAGRAM "# local\n127.0.0.1 myrouter\n")
      = "# local\n127.0.0.1 myrouter\n" := by
  have h := c3_block_unblock_roundtrip INSTAGRAM ["# local", "127.0.0.1 myrouter"]
    (by decide) (by decide) (by decide) (by decide)
  rw [show (joinNl ["# local", "127.0.0.1 myrouter"] ++ "\n" : String)
      = "# local\n127.0.0.1 myrouter\n" from by decide] at h
  exact h

/-- C3 counterexample: a content with no INSTAGRAM section but no trailing
newline is not restored byte for byte: block then unblock appends a
trailing newline, so the trailing-newline shape is not preserved and the
claim as stated (round trip for every content with no managed section) is
false. -/
theorem c3_counterexample :
    containsSub INSTAGRAM.marker_start "# myhost" = false
    ∧ containsSub INSTAGRAM.marker_end "# myhost" = false
    ∧ unblockTransform INSTAGRAM (blockTransform INSTAGRAM "# myhost") = "# myhost\n"
    ∧ "# myhost\n" ≠ "# myhost" := by
  decide

/-! ## Tracker helper lemmas -/

theorem loadData_stored_eq (d : UsageData) (today : Int) (h : d.date = today) :
    loadData (.stored d) today = d := by
  simp [loadData, h]

theorem loadData_date (fs : UsageFile) (today : Int) :
    (loadData fs today).date = today := by
  cases fs with
  | stored d =>
    by_cases h : d.date = today
    · simp [loadData, h]
    · simp [loadData, h, freshUsage]
  | absent => rfl
  | corrupt => rfl

theorem addUsage_fst (fs : UsageFile) (today : Int) (s : ℚ) :
    (addUsage fs today s).1
      = .stored { loadData fs today with
          used_seconds := (loadData fs today).used_seconds + s } := rfl

theorem incrementSessionCount_fst (fs : UsageFile) (today : Int) :
    (incrementSessionCount fs today).1
      = .stored { loadData fs today with
          sessions := (loadData fs today).sessions + 1 } := rfl

theorem loadData_addUsage_used (fs : UsageFile) (today : Int) (s : ℚ) :
    (loadData (addUsage fs today s).1 today).used_seconds
      = (loadData fs today).used_seconds + s := by
  rw [addUsage_fst]
  rw [loadData_stored_eq _ today (by simp [loadData_date])]

theorem usedOkB_stored (d : UsageData) :
    usedOkB (.stored d) = true ↔ 0 ≤ d.used_seconds := by
  simp [usedOkB]

theorem loadData_used_nonneg (fs : UsageFile) (today : Int)
    (h : usedOkB fs = true) : 0 ≤ (loadData fs today).used_seconds := by
  cases fs with
  | stored d =>
    rw [usedOkB_stored] at h
    by_cases hd : d.date = today
    · rw [loadData_stored_eq d today hd]
      exact h
    · simp [loadData, hd, freshUsage]
  | absent => simp [loadData, freshUsage]
  | corrupt => simp [loadData, freshUsage]

theorem getRemainingSeconds_step_le (p : Platform) (fs : UsageFile) (today : Int)
    (s : ℚ) (h : 0 < s) :
    getRemainingSeconds p (addUsage fs today s).1 today
      ≤ getRemainingSeconds p fs today := by
  unfold getRemainingSeconds getUsedSeconds
  simp only
  rw [loadData_addUsage_used]
  apply max_le_max le_rfl
  have : (loadData fs today).used_seconds
      ≤ (loadData fs today).used_seconds + s := by linarith
  linarith

/-! # Claim theorems C4 to C10 -/

/-- C4 (code bug): the claim says a write failure from insufficient
privilege makes `block_platform`/`unblock_platform` return `False`.  In
the code, `_write_hosts_file` catches every exception internally (atomic
write fails, the direct fallback fails, the error is only logged), so a
permission failure of the write leaves the hosts file unchanged while
`block_platform` still returns `True`.  Only a failing read produces the
`False` return; and indeed no exception ever propagates. -/
theorem c4_write_permission_swallowed :
    (blockPlatformRun none ⟨some .permission, some .permission⟩ "# hosts\n" INSTAGRAM).1 = true
    ∧ (blockPlatformRun none ⟨some .permission, some .permission⟩ "# hosts\n" INSTAGRAM).2 = "# hosts\n"
    ∧ containsSub INSTAGRAM.marker_start
        (blockPlatformRun none ⟨some .permission, some .permission⟩ "# hosts\n" INSTAGRAM).2 = false
    ∧ (∀ (e : PyErr) (env : WriteEnv) (f : String) (p : Platform),
        (blockPlatformRun (some e) env f p).1 = false)
    ∧ (∀ (e : PyErr) (env : WriteEnv) (f : String) (p : Platform),
        (unblockPlatformRun (some e) env f p).1 = false) :=
  ⟨by decide, by decide, by decide,
   fun _ _ _ _ => rfl, fun _ _ _ _ => rfl⟩

/-- C5: a usage read returns 0 used seconds whenever the stored date
differs from the current logical day, and leaves the stale file in place
(the returned file state is unchanged); the logical day is yesterday's
calendar date exactly when the local hour is strictly below `RESET_HOUR`
(4), and today's otherwise. -/
theorem c5_logical_day_stale_read_zero (now : SimTime) (d : UsageData) :
    (now.hour < RESET_HOUR → logicalDay now = now.day - 1)
    ∧ (RESET_HOUR ≤ now.hour → logicalDay now = now.day)
    ∧ (d.date ≠ logicalDay now →
        getUsedSeconds (.stored d) (logicalDay now) = (.stored d, 0)) := by
  refine ⟨?_, ?_, ?_⟩
  · intro h
    simp [logicalDay, h]
  · intro h
    simp [logicalDay, Nat.not_lt.mpr h]
  · intro h
    simp [getUsedSeconds, loadData, h, freshUsage]

/-- C5 witness: at hour 2 of day 100 the logical day is 99, and reading a
ledger stored for day 98 yields 0 used seconds with the file untouched. -/
theorem c5_logical_day_stale_read_zero_witness :
    (⟨100, 2⟩ : SimTime).hour < RESET_HOUR
    ∧ logicalDay ⟨100, 2⟩ = (100 : Int) - 1
    ∧ (⟨98, 500, 1⟩ : UsageData).date ≠ logicalDay ⟨100, 2⟩
    ∧ getUsedSeconds (.stored ⟨98, 500, 1⟩) (logicalDay ⟨100, 2⟩) = (.stored ⟨98, 500, 1⟩, 0) :=
  ⟨by decide,
   (c5_logical_day_stale_read_zero ⟨100, 2⟩ ⟨98, 500, 1⟩).1 (by decide),
   by decide,
   (c5_logical_day_stale_read_zero ⟨100, 2⟩ ⟨98, 500, 1⟩).2.2 (by decide)⟩

/-- C6: within one logical day, remaining seconds are monotonically
non-increasing across any sequence of positive `add_usage` deltas, never
negative, and clamped to exactly 0 once used seconds reach the limit. -/
theorem c6_remaining_monotone_clamped (p : Platform) (fs : UsageFile) (today : Int)
    (deltas : List ℚ) (hpos : ∀ s ∈ deltas, 0 < s) :
    getRemainingSeconds p (applyAdds today fs deltas) today
        ≤ getRemainingSeconds p fs today
    ∧ 0 ≤ getRemainingSeconds p (applyAdds today fs deltas) today
    ∧ ((p.daily_limit_minutes : ℚ) * 60 ≤ (getUsedSeconds fs today).2 →
        getRemainingSeconds p fs today = 0) := by
  refine ⟨?_, le_max_left 0 _, ?_⟩
  · induction deltas generalizing fs with
    | nil => exact le_refl _
    | cons s ds ih =>
      have hstep : applyAdds today fs (s :: ds)
          = applyAdds today (addUsage fs today s).1 ds := rfl
      rw [hstep]
      exact le_trans
        (ih (addUsage fs today s).1 (fun t ht => hpos t (List.mem_cons_of_mem s ht)))
        (getRemainingSeconds_step_le p fs today s (hpos s (List.mem_cons_self s ds)))
  · intro h
    unfold getRemainingSeconds
    have : (p.daily_limit_minutes : ℚ) * 60 - (getUsedSeconds fs today).2 ≤ 0 := by
      linarith
    exact max_eq_left this

/-- C6 witness: with the INSTAGRAM limit of 10 minutes and 700 seconds
already used, two further positive deltas keep remaining non-increasing,
non-negative, and clamped at 0. -/
theorem c6_remaining_monotone_clamped_witness :
    getRemainingSeconds INSTAGRAM (applyAdds 0 (.stored ⟨0, 700, 0⟩) [30, 600]) 0
        ≤ getRemainingSeconds INSTAGRAM (.stored ⟨0, 700, 0⟩) 0
    ∧ 0 ≤ getRemainingSeconds INSTAGRAM (applyAdds 0 (.stored ⟨0, 700, 0⟩) [30, 600]) 0
    ∧ getRemainingSeconds INSTAGRAM (.stored ⟨0, 700, 0⟩) 0 = 0 := by
  have h := c6_remaining_monotone_clamped INSTAGRAM (.stored ⟨0, 700, 0⟩) 0 [30, 600]
    (by intro s hs; rcases List.mem_cons.mp hs with h | h
        · rw [h]; norm_num
        · rw [List.mem_singleton] at h; rw [h]; norm_num)
  exact ⟨h.1, h.2.1, h.2.2 (by norm_num [getUsedSeconds, loadData, INSTAGRAM])⟩

/-- C7 (amended): provided every `add_usage` delta of the sequence is
non-negative, the stored used-seconds value remains non-negative after
every sequence of tracker operations starting from a well-formed (or
absent/corrupt) ledger file. -/
theorem c7_used_seconds_nonneg (fs : UsageFile) (today : Int) (ops : List TrackerOp)
    (hpos : addsNonnegB ops = true) (h0 : usedOkB fs = true) :
    usedOkB (applyOps today fs ops) = true := by
  induction ops generalizing fs with
  | nil => exact h0
  | cons op ops ih =>
    have hstep : applyOps today fs (op :: ops)
        = applyOps today (applyOp today fs op) ops := rfl
    rw [hstep]
    cases op with
    | getUsed =>
      exact ih fs (hpos : addsNonnegB ops = true) h0
    | add s =>
      have hands : decide (0 ≤ s) = true ∧ addsNonnegB ops = true := by
        have h2 : (decide (0 ≤ s) && addsNonnegB ops) = true := hpos
        rw [Bool.and_eq_true] at h2
        exact h2
      have hs : 0 ≤ s := of_decide_eq_true hands.1
      refine ih (applyOp today fs (.add s)) hands.2 ?_
      show usedOkB (addUsage fs today s).1 = true
      rw [addUsage_fst]
      rw [usedOkB_stored]
      simp only
      exact add_nonneg (loadData_used_nonneg fs today h0) hs
    | incSession =>
      refine ih (applyOp today fs .incSession) (hpos : addsNonnegB ops = true) ?_
      show usedOkB (incrementSessionCount fs today).1 = true
      rw [incrementSessionCount_fst]
      rw [usedOkB_stored]
      simp only
      exact loadData_used_nonneg fs today h0
    | reset =>
      refine ih (applyOp today fs .reset) (hpos : addsNonnegB ops = true) ?_
      show usedOkB (resetPlatform today) = true
      rw [resetPlatform, usedOkB_stored]
      simp [freshUsage]

/-- C7 witness: a mixed sequence of operations with non-negative deltas
keeps the stored used-seconds non-negative. -/
theorem c7_used_seconds_nonneg_witness :
    usedOkB (applyOps 0 .absent
      [.add 5, .incSession, .getUsed, .reset, .add 2]) = true :=
  c7_used_seconds_nonneg .absent 0
    [.add 5, .incSession, .getUsed, .reset, .add 2] (by decide) (by decide)

/-- C7 counterexample: `add_usage` does not clamp: a single negative delta
on a fresh ledger stores a negative used-seconds value, refuting the claim
for arbitrary operation sequences. -/
theorem c7_counterexample :
    applyOps 0 .absent [.add (-1)] = .stored ⟨0, -1, 0⟩
    ∧ usedOkB (applyOps 0 .absent [.add (-1)]) = false := by
  have hval : applyOps 0 .absent [.add (-1)] = .stored ⟨0, (0 : ℚ) + (-1), 0⟩ := rfl
  have harith : ((0 : ℚ) + (-1)) = -1 := by norm_num
  constructor
  · rw [hval, harith]
  · rw [hval, harith]
    have hneg : ¬((0 : ℚ) ≤ -1) := by norm_num
    simp [usedOkB, hneg]

/-- C8: `load_persisted_blackout` computes remaining time as end time
minus now; a file whose end time is exactly 10 minutes (600 s) away
resumes with 10 minutes remaining and is kept; any file with strictly
more than the one-minute threshold remaining resumes (is some) and is
kept; a file at or below one minute remaining — in particular any file
whose end time is in the past — is never resumed: the call returns none
and the state file is deleted (the unwind for a blackout session). -/
theorem c8_persisted_session_resume (b : BlackoutData) (now : ℚ) :
    (b.end_epoch - now = 600 →
      loadPersistedBlackout (.stored b) now = (some (10, b.locked), .stored b))
    ∧ (60 < b.end_epoch - now →
      (loadPersistedBlackout (.stored b) now).1.isSome = true
      ∧ (loadPersistedBlackout (.stored b) now).2 = .stored b)
    ∧ (b.end_epoch - now ≤ 60 →
      loadPersistedBlackout (.stored b) now = (none, .absent)) := by
  refine ⟨?_, ?_, ?_⟩
  · intro h
    simp only [loadPersistedBlackout]
    rw [h]
    rw [if_pos (by norm_num)]
    rw [show ((600 : ℚ) / 60) = ((10 : Int) : ℚ) by norm_num]
    rw [show pyIntTrunc ((10 : Int) : ℚ) = 10 by
      unfold pyIntTrunc
      rw [if_pos (by norm_num)]
      exact Int.floor_intCast 10]
    norm_num
  · intro h
    simp only [loadPersistedBlackout]
    rw [if_pos h]
    exact ⟨rfl, rfl⟩
  · intro h
    simp only [loadPersistedBlackout]
    rw [if_neg (not_lt.mpr h)]

/-- C8 witness: a session ending 600 seconds from now resumes as 10
minutes (locked flag preserved); the same session read 30 seconds before
its end is discarded and its file deleted. -/
theorem c8_persisted_session_resume_witness :
    loadPersistedBlackout (.stored ⟨1000, 10, true⟩) 400
      = (some (10, true), .stored ⟨1000, 10, true⟩)
    ∧ loadPersistedBlackout (.stored ⟨1000, 10, true⟩) 970 = (none, .absent) :=
  ⟨(c8_persisted_session_resume ⟨1000, 10, true⟩ 400).1 (by norm_num),
   (c8_persisted_session_resume ⟨1000, 10, true⟩ 970).2.2 (by norm_num)⟩

/-- C9 counterexample: in the successful enable trace the crash-recovery
flag write is the last action, strictly after the rule-creation actions,
so the claim that the flag is written before or together with rule
creation is false (a crash between rule creation and the end of enable
leaves rules without a flag). -/
theorem c9_counterexample :
    FwAction.writeFlag ∈ (enableAllowlistActions false true).1
    ∧ (FwAction.addRule allowlistBlockAllRule) ∈ (enableAllowlistActions false true).1
    ∧ ¬((enableAllowlistActions false true).1.indexOf FwAction.writeFlag
        ≤ (enableAllowlistActions false true).1.indexOf (FwAction.addRule allowlistBlockAllRule)) := by
  decide

/-- C9 (amended): the crash-recovery flag is written at the end of a
successful enable, strictly after rule creation; it is not written at all
when rule creation fails (and enable returns failure); and graceful
disable clears the flag as its final action. -/
theorem c9_flag_ordering :
    FwAction.writeFlag ∈ (enableAllowlistActions false true).1
    ∧ (enableAllowlistActions false true).1.getLast? = some FwAction.writeFlag
    ∧ (enableAllowlistActions false true).1.indexOf (FwAction.addRule allowlistBlockAllRule)
        < (enableAllowlistActions false true).1.indexOf FwAction.writeFlag
    ∧ (enableAllowlistActions false true).2 = true
    ∧ FwAction.writeFlag ∉ (enableAllowlistActions false false).1
    ∧ (enableAllowlistActions false false).2 = false
    ∧ FwAction.clearFlag ∈ disableAllowlistActions
    ∧ disableAllowlistActions.getLast? = some FwAction.clearFlag := by
  decide

/-- C10: `is_blocked` converts every read failure into `False` and, being
a total function of the read outcome, never raises. -/
theorem c10_is_blocked_read_error_false (e : PyErr) (p : Platform) :
    isBlockedRun (Except.error e) p = false := rfl

end DarkPause
